import Mathlib

/-
Shallow embedding of the MultiChoiceVoting contract (Solidity source embedded
in the repository) together with the honest-oracle finalization flow.

The Ciphertext Primitive Layer is an external library (spec section 4.5); it is
modelled abstractly: an encrypted 32-bit counter is a plaintext value paired
with a unique handle identifier, homomorphic add / eq / select are exact on the
value, and every homomorphic result is a fresh handle.  The FHE access-control
list (FHE.allowThis / FHE.allow) is modelled per handle, as in the FHEVM: a
permission attaches to one ciphertext handle and is not inherited by handles
derived from it.
-/

/-- Address of the voting contract itself, as granted by FHE.allowThis. -/
def contractAddr : Nat := 0

/-- Encrypted 32-bit counter: the plaintext value it encrypts together with a
unique handle identifier. -/
structure Ciphertext where
  val : Nat
  hid : Nat
deriving Repr, DecidableEq, Inhabited

/-- One poll record, mirroring the Solidity struct Poll field by field. -/
structure Poll where
  title : String
  options : List String
  startTime : Nat
  endTime : Nat
  creator : Nat
  finalized : Bool
  decryptionPending : Bool
  requestId : Nat
  encryptedCounts : List Ciphertext
  decryptedCounts : List Nat
  totalVoters : Nat
deriving Repr, DecidableEq, Inhabited

/-- Whole contract state: the poll store, the hasVoted mapping (as the set of
pairs that are true), the requestId-to-pollId mapping, the per-handle FHE
access-control list, and the fresh-handle / fresh-requestId counters of the
external FHE environment. -/
structure VState where
  polls : List Poll
  hasVoted : List (Nat × Nat)
  requestToPoll : List (Nat × Nat)
  acl : List (Nat × Nat)
  nextHandle : Nat
  nextRequestId : Nat
deriving Repr, DecidableEq

/-- Error taxonomy: one constructor per require message of the contract. -/
inductive Err where
  | pollDoesNotExist
  | titleEmpty
  | invalidOptionCount
  | endBeforeStart
  | endNotFuture
  | votingNotStarted
  | votingEnded
  | pollFinalized
  | alreadyVoted
  | decryptionAlreadyPending
  | invalidRequestId
  | noPendingDecryption
  | resultLengthMismatch
deriving Repr, DecidableEq

/-- Lookup in a Solidity mapping uint256 to uint256: a missing key reads 0. -/
def lookupD (l : List (Nat × Nat)) (k : Nat) : Nat :=
  match l.find? (fun p => p.1 == k) with
  | some p => p.2
  | none => 0

/-- Fresh encrypted-zero counters, one per option, with handles h, h+1, ... -/
def initCounts : Nat → Nat → List Ciphertext
  | 0, _ => []
  | n + 1, h => ⟨0, h⟩ :: initCounts n (h + 1)

/-- createPoll: validates title, option count and time range, then appends a
new open poll with zero-initialized accumulators. -/
def createPollOp (s : VState) (sender : Nat) (title : String)
    (options : List String) (startTime endTime now : Nat) : Except Err VState :=
  if title.isEmpty then .error .titleEmpty
  else if options.length < 2 ∨ 16 < options.length then .error .invalidOptionCount
  else if endTime ≤ startTime then .error .endBeforeStart
  else if endTime ≤ now then .error .endNotFuture
  else .ok { s with
    polls := s.polls ++ [{
      title := title
      options := options
      startTime := startTime
      endTime := endTime
      creator := sender
      finalized := false
      decryptionPending := false
      requestId := 0
      encryptedCounts := initCounts options.length s.nextHandle
      decryptedCounts := List.replicate options.length 0
      totalVoters := 0 }]
    nextHandle := s.nextHandle + options.length }

/-- Homomorphic fan-out of one ballot over the accumulators: position i gets
val + (if choice = i then 1 else 0) under a fresh handle, mirroring
FHE.add (counts[i], FHE.select (FHE.eq voteIndex i, 1, 0)). -/
def bumpCounts : List Ciphertext → Nat → Nat → Nat → List Ciphertext
  | [], _, _, _ => []
  | c :: rest, v, i, h =>
      ⟨c.val + (if v = i then 1 else 0), h⟩ :: bumpCounts rest v (i + 1) (h + 1)

/-- Permissions granted during one vote: for each fresh handle h, h+1, ...
the contract (FHE.allowThis), the sender and the poll creator. -/
def aclGrants : Nat → Nat → Nat → Nat → List (Nat × Nat)
  | _, 0, _, _ => []
  | h, n + 1, sender, creator =>
      (h, contractAddr) :: (h, sender) :: (h, creator) ::
        aclGrants (h + 1) n sender creator

/-- vote: checks existence, window, finalization and double voting, then
applies the homomorphic fan-out, grants per-handle permissions, marks the
voter and increments totalVoters. -/
def voteOp (s : VState) (sender pollId choice now : Nat) : Except Err VState :=
  if h : pollId < s.polls.length then
    if now < s.polls[pollId].startTime then .error .votingNotStarted
    else if s.polls[pollId].endTime < now then .error .votingEnded
    else if s.polls[pollId].finalized then .error .pollFinalized
    else if (pollId, sender) ∈ s.hasVoted then .error .alreadyVoted
    else
      .ok { s with
        polls := s.polls.set pollId { s.polls[pollId] with
          encryptedCounts :=
            bumpCounts s.polls[pollId].encryptedCounts choice 0 s.nextHandle
          totalVoters := s.polls[pollId].totalVoters + 1 }
        hasVoted := (pollId, sender) :: s.hasVoted
        acl := aclGrants s.nextHandle s.polls[pollId].encryptedCounts.length
                 sender s.polls[pollId].creator ++ s.acl
        nextHandle := s.nextHandle + s.polls[pollId].encryptedCounts.length }
  else .error .pollDoesNotExist

/-- requestFinalization: the source deliberately has no voting-window check
(the block.timestamp require is commented out); it only rejects finalized or
already-pending polls, then records a fresh decryption request. -/
def requestFinalizationOp (s : VState) (pollId : Nat) : Except Err VState :=
  if h : pollId < s.polls.length then
    if s.polls[pollId].finalized then .error .pollFinalized
    else if s.polls[pollId].decryptionPending then .error .decryptionAlreadyPending
    else
      .ok { s with
        polls := s.polls.set pollId { s.polls[pollId] with
          decryptionPending := true
          requestId := s.nextRequestId }
        requestToPoll := (s.nextRequestId, pollId) :: s.requestToPoll
        nextRequestId := s.nextRequestId + 1 }
  else .error .pollDoesNotExist

/-- decryptionCallback: resolves the request to a poll (a missing mapping key
reads 0), requires a matching pending request and matching result length, then
commits the cleartexts and finalizes.  The caller and the signatures are
accepted without any verification, mirroring the source, where the
FHE.checkSignatures call is commented out and the function is public. -/
def decryptionCallbackOp (s : VState) (caller requestId : Nat)
    (cleartexts : List Nat) (signatures : List (List Nat)) : Except Err VState :=
  if h : lookupD s.requestToPoll requestId < s.polls.length then
    if (s.polls[lookupD s.requestToPoll requestId]).decryptionPending = true ∧
        (s.polls[lookupD s.requestToPoll requestId]).requestId = requestId then
      if cleartexts.length
          = (s.polls[lookupD s.requestToPoll requestId]).encryptedCounts.length then
        .ok { s with
          polls := s.polls.set (lookupD s.requestToPoll requestId)
            { s.polls[lookupD s.requestToPoll requestId] with
              decryptedCounts := cleartexts
              finalized := true
              decryptionPending := false } }
      else .error .resultLengthMismatch
    else .error .noPendingDecryption
  else .error .invalidRequestId

/-- getTotalVoters view. -/
def getTotalVoters (s : VState) (pollId : Nat) : Except Err Nat :=
  if h : pollId < s.polls.length then .ok (s.polls[pollId]).totalVoters
  else .error .pollDoesNotExist

/-- hasUserVoted view. -/
def hasUserVoted (s : VState) (pollId user : Nat) : Except Err Bool :=
  if pollId < s.polls.length then .ok (decide ((pollId, user) ∈ s.hasVoted))
  else .error .pollDoesNotExist

/-- One externally triggered transaction. -/
inductive Op where
  | create (sender : Nat) (title : String) (options : List String)
      (startTime endTime now : Nat)
  | castVote (sender pollId choice now : Nat)
  | finalize (pollId : Nat)
  | callback (caller requestId : Nat) (cleartexts : List Nat)
      (signatures : List (List Nat))
deriving Repr

/-- Dispatch one transaction. -/
def apply1 (s : VState) : Op → Except Err VState
  | .create sender title options st en now =>
      createPollOp s sender title options st en now
  | .castVote sender pollId choice now => voteOp s sender pollId choice now
  | .finalize pollId => requestFinalizationOp s pollId
  | .callback caller rid cts sigs => decryptionCallbackOp s caller rid cts sigs

/-- Transaction semantics: a reverted transaction leaves the state unchanged. -/
def step (s : VState) (op : Op) : VState :=
  match apply1 s op with
  | .ok s' => s'
  | .error _ => s

/-- Run a sequence of transactions. -/
def run (s : VState) : List Op → VState
  | [] => s
  | op :: ops => run (step s op) ops

/-- Freshly deployed contract. -/
def initState : VState :=
  { polls := [], hasVoted := [], requestToPoll := [], acl := []
    nextHandle := 0, nextRequestId := 1 }

/-- Lifecycle rank: Open = 0, DecryptionPending = 1, Finalized = 2. -/
def lifecycle (p : Poll) : Nat :=
  if p.finalized then 2 else if p.decryptionPending then 1 else 0

/-- State invariant: no poll is simultaneously finalized and pending. -/
def StateInv (s : VState) : Prop :=
  ∀ p ∈ s.polls, ¬(p.finalized = true ∧ p.decryptionPending = true)

/-- Cast a list of (voter, choice) ballots in order on one poll. -/
def castAll (s : VState) (pollId now : Nat) :
    List (Nat × Nat) → Except Err VState
  | [] => .ok s
  | (v, c) :: rest =>
      match voteOp s v pollId c now with
      | .ok s' => castAll s' pollId now rest
      | .error e => .error e

/-- Full honest-oracle election run: cast all ballots, request finalization,
then deliver the decryption callback with the true plaintexts of exactly the
requested accumulator ciphertexts; returns the revealed counts and the final
totalVoters. -/
def runElection (s : VState) (pollId now : Nat) (votes : List (Nat × Nat)) :
    Except Err (List Nat × Nat) :=
  match castAll s pollId now votes with
  | .error e => .error e
  | .ok s₁ =>
    match requestFinalizationOp s₁ pollId with
    | .error e => .error e
    | .ok s₂ =>
      if h₂ : pollId < s₂.polls.length then
        match decryptionCallbackOp s₂ contractAddr (s₂.polls[pollId]).requestId
            ((s₂.polls[pollId]).encryptedCounts.map Ciphertext.val) [] with
        | .error e => .error e
        | .ok s₃ =>
          if h₃ : pollId < s₃.polls.length then
            .ok ((s₃.polls[pollId]).decryptedCounts, (s₃.polls[pollId]).totalVoters)
          else .error .pollDoesNotExist
      else .error .pollDoesNotExist

/-- Per-option histogram of a list of choices over n options. -/
def histo (choices : List Nat) (n : Nat) : List Nat :=
  (List.range n).map (fun i => choices.count i)

/-- Error projection of a transaction result. -/
def errOf : Except Err VState → Option Err
  | .error e => some e
  | .ok _ => none

/-- Concrete scenario: account 1 creates a 2-option poll open on [0, 100]. -/
def sPollA : VState :=
  step initState (.create 1 ("T") [("A"), ("B")] 0 100 10)

/-- Concrete scenario: finalization requested on poll 0 (requestId 1),
so poll 0 is in DecryptionPending. -/
def sPendingA : VState := step sPollA (.finalize 0)

/-- Concrete scenario: the callback for requestId 1 delivered [3, 4],
so poll 0 is Finalized with revealed counts [3, 4]. -/
def sFinalA : VState := step sPendingA (.callback 999 1 [3, 4] [])

/-- Concrete scenario: voter 2 votes choice 0, then voter 3 votes choice 1,
both on poll 0 of sPollA. -/
def sTwoVotes : VState :=
  step (step sPollA (.castVote 2 0 0 10)) (.castVote 3 0 1 10)

/-- Poll record read off the store, with a default for out-of-range ids. -/
def pollAt (s : VState) (pid : Nat) : Poll := s.polls.getD pid default

/-- Admissible single-transaction effect on one stored poll: a vote leaves
both lifecycle flags unchanged, a finalization request moves an open poll to
pending, and a callback moves a pending poll to finalized. -/
def pollStep (p q : Poll) : Prop :=
  (q.finalized = p.finalized ∧ q.decryptionPending = p.decryptionPending) ∨
  (p.finalized = false ∧ p.decryptionPending = false ∧
    q.finalized = false ∧ q.decryptionPending = true) ∨
  (p.decryptionPending = true ∧ q.finalized = true ∧
    q.decryptionPending = false)

example : initCounts 2 5 = [⟨0, 5⟩, ⟨0, 6⟩] := by decide

theorem bumpCounts_length (l : List Ciphertext) (v : Nat) :
    ∀ i h, (bumpCounts l v i h).length = l.length := by
  induction l with
  | nil => intro i h; rfl
  | cons c rest ih => intro i h; simp [bumpCounts, ih]

theorem bumpCounts_getD (l : List Ciphertext) (v : Nat) :
    ∀ i h j, j < l.length →
      (bumpCounts l v i h).getD j default
        = ⟨(l.getD j default).val + (if v = i + j then 1 else 0), h + j⟩ := by
  induction l with
  | nil => intro i h j hj; simp at hj
  | cons c rest ih =>
      intro i h j hj
      cases j with
      | zero => simp [bumpCounts]
      | succ j =>
          have hj' : j < rest.length := by simpa using hj
          have hrec := ih (i + 1) (h + 1) j hj'
          have e1 : i + 1 + j = i + (j + 1) := by omega
          have e2 : h + 1 + j = h + (j + 1) := by omega
          rw [e1, e2] at hrec
          simp only [bumpCounts, List.getD_cons_succ, hrec]

theorem aclGrants_mem (sender creator : Nat) :
    ∀ n h0 j, j < n →
      (h0 + j, contractAddr) ∈ aclGrants h0 n sender creator ∧
      (h0 + j, sender) ∈ aclGrants h0 n sender creator ∧
      (h0 + j, creator) ∈ aclGrants h0 n sender creator := by
  intro n
  induction n with
  | zero => intro h0 j hj; omega
  | succ m ih =>
      intro h0 j hj
      cases j with
      | zero => simp [aclGrants]
      | succ j =>
          have hj' : j < m := by omega
          have h3 := ih (h0 + 1) j hj'
          have harith : h0 + (j + 1) = h0 + 1 + j := by omega
          refine ⟨?_, ?_, ?_⟩ <;> rw [harith] <;>
            simp [aclGrants, h3.1, h3.2.1, h3.2.2]

/-- Explicit success form of voteOp: under the acceptance preconditions the
vote produces exactly the fan-out update, the hasVoted mark, the permission
grants and the handle-counter bump. -/
theorem voteOp_eq_ok (s : VState) (sender pollId choice now : Nat)
    (h : pollId < s.polls.length)
    (hst : (pollAt s pollId).startTime ≤ now)
    (hen : now ≤ (pollAt s pollId).endTime)
    (hf : (pollAt s pollId).finalized = false)
    (hv : (pollId, sender) ∉ s.hasVoted) :
    voteOp s sender pollId choice now = .ok { s with
      polls := s.polls.set pollId { pollAt s pollId with
        encryptedCounts :=
          bumpCounts (pollAt s pollId).encryptedCounts choice 0 s.nextHandle
        totalVoters := (pollAt s pollId).totalVoters + 1 }
      hasVoted := (pollId, sender) :: s.hasVoted
      acl := aclGrants s.nextHandle (pollAt s pollId).encryptedCounts.length
               sender (pollAt s pollId).creator ++ s.acl
      nextHandle := s.nextHandle + (pollAt s pollId).encryptedCounts.length } := by
  have hpa : pollAt s pollId = s.polls[pollId] := List.getD_eq_getElem _ _ h
  rw [hpa] at hst hen hf ⊢
  unfold voteOp
  rw [dif_pos h, if_neg (by omega), if_neg (by omega),
    if_neg (by simp [hf]), if_neg hv]

example :
    (createPollOp initState 1 ("T") [("A"), ("B")] 0 100 10).toOption.map
      (fun s => (s.polls.length, s.nextHandle)) = some (1, 2) := by decide

/-- C1: the decryption callback performs no verification at all: with poll 0
pending under requestId 1, a callback from arbitrary address 999 carrying an
empty signature list and fabricated cleartexts [7, 7] is accepted and commits
those forged counts, finalizing the poll.  The source comments out
FHE.checkSignatures and restricts the caller in no way, so any caller can
forge results, contradicting the specified mandatory verification. -/
theorem decryptionCallback_accepts_unverified_forgery :
    ((sPendingA.polls.getD 0 default).decryptionPending = true) ∧
    (decryptionCallbackOp sPendingA 999 1 [7, 7] []).toOption.map
      (fun s => ((s.polls.getD 0 default).finalized,
                 (s.polls.getD 0 default).decryptedCounts))
      = some (true, [7, 7]) := by decide

/-- C2 counterexample: poll 0 of sPendingA is in DecryptionPending (pending
and not finalized), yet a vote from fresh voter 5 inside the voting window is
accepted and raises totalVoters to 1, instead of failing AlreadyFinalized. -/
theorem vote_accepted_while_decryptionPending :
    ((sPendingA.polls.getD 0 default).decryptionPending = true) ∧
    ((sPendingA.polls.getD 0 default).finalized = false) ∧
    (voteOp sPendingA 5 0 0 10).toOption.map
      (fun s => ((s.polls.getD 0 default).totalVoters,
                 decide ((0, 5) ∈ s.hasVoted))) = some (1, true) := by decide

/-- C8 counterexample: poll 0 of sFinalA is Finalized with revealed counts
[3, 4]; a repeated callback for its requestId 1 fails with the
no-pending-decryption error, not with the finalized-poll error, and leaves
the revealed counts unchanged. -/
theorem repeat_callback_error_not_alreadyFinalized :
    ((sFinalA.polls.getD 0 default).finalized = true) ∧
    errOf (decryptionCallbackOp sFinalA 999 1 [9, 9] [])
      = some Err.noPendingDecryption ∧
    Err.noPendingDecryption ≠ Err.pollFinalized ∧
    ((step sFinalA (.callback 999 1 [9, 9] [])).polls.getD 0 default).decryptedCounts
      = [3, 4] := by decide

/-- C10 counterexample: on poll 0 of sTwoVotes, voter 2 has voted and the poll
is not finalized, yet voter 2 holds no permission on either of the poll's
current encrypted counters: the second vote replaced both accumulators with
fresh ciphertext handles that were granted only to the contract, to voter 3
and to the creator. -/
theorem earlier_voter_lacks_permission_on_current_counts :
    ((0, 2) ∈ sTwoVotes.hasVoted) ∧
    ((sTwoVotes.polls.getD 0 default).finalized = false) ∧
    ((((sTwoVotes.polls.getD 0 default).encryptedCounts.getD 0 default).hid, 2)
        ∉ sTwoVotes.acl) ∧
    ((((sTwoVotes.polls.getD 0 default).encryptedCounts.getD 1 default).hid, 2)
        ∉ sTwoVotes.acl) := by decide

theorem getD_set_self {α : Type} [Inhabited α] (l : List α) (i : Nat) (a : α)
    (h : i < l.length) : (l.set i a).getD i default = a := by
  have h' : i < (l.set i a).length := by simpa using h
  rw [List.getD_eq_getElem _ _ h', List.getElem_set_self]

/-- C2 amended: vote rejects a poll with the finalized error exactly when the
poll is Finalized; a poll merely in DecryptionPending still accepts votes
inside the voting window from a fresh voter, mutating the accumulators and
totalVoters.  The source checks only the finalized flag, not the pending
flag. -/
theorem vote_rejects_only_finalized (s : VState) (sender pollId choice now : Nat)
    (h : pollId < s.polls.length)
    (hst : (pollAt s pollId).startTime ≤ now)
    (hen : now ≤ (pollAt s pollId).endTime) :
    ((pollAt s pollId).finalized = true →
      voteOp s sender pollId choice now = .error .pollFinalized) ∧
    ((pollAt s pollId).finalized = false → (pollId, sender) ∉ s.hasVoted →
      ∃ s', voteOp s sender pollId choice now = .ok s' ∧
        (pollAt s' pollId).totalVoters = (pollAt s pollId).totalVoters + 1) := by
  constructor
  · intro hf
    have hpa : pollAt s pollId = s.polls[pollId] := List.getD_eq_getElem _ _ h
    rw [hpa] at hst hen hf
    unfold voteOp
    rw [dif_pos h, if_neg (by omega), if_neg (by omega), if_pos hf]
  · intro hf hv
    refine ⟨_, voteOp_eq_ok s sender pollId choice now h hst hen hf hv, ?_⟩
    show (pollAt { s with
      polls := s.polls.set pollId { pollAt s pollId with
        encryptedCounts :=
          bumpCounts (pollAt s pollId).encryptedCounts choice 0 s.nextHandle
        totalVoters := (pollAt s pollId).totalVoters + 1 }
      hasVoted := (pollId, sender) :: s.hasVoted
      acl := aclGrants s.nextHandle (pollAt s pollId).encryptedCounts.length
               sender (pollAt s pollId).creator ++ s.acl
      nextHandle := s.nextHandle + (pollAt s pollId).encryptedCounts.length }
        pollId).totalVoters = (pollAt s pollId).totalVoters + 1
    unfold pollAt
    rw [getD_set_self _ _ _ h]

/-- C4: an accepted vote updates every accumulator i by the homomorphically
selected increment (1 when the encrypted choice equals i, else 0); an
out-of-range choice therefore increments no accumulator, while totalVoters
still rises by one and the voter's single vote is consumed. -/
theorem vote_fanout_select_increment (s : VState) (sender pollId choice now : Nat)
    (h : pollId < s.polls.length)
    (hst : (pollAt s pollId).startTime ≤ now)
    (hen : now ≤ (pollAt s pollId).endTime)
    (hf : (pollAt s pollId).finalized = false)
    (hv : (pollId, sender) ∉ s.hasVoted)
    (hlen : (pollAt s pollId).encryptedCounts.length
              = (pollAt s pollId).options.length) :
    ∃ s', voteOp s sender pollId choice now = .ok s' ∧
      (pollAt s' pollId).encryptedCounts.length
        = (pollAt s pollId).options.length ∧
      (∀ i, i < (pollAt s pollId).options.length →
        ((pollAt s' pollId).encryptedCounts.getD i default).val
          = ((pollAt s pollId).encryptedCounts.getD i default).val
            + (if choice = i then 1 else 0)) ∧
      ((pollAt s pollId).options.length ≤ choice →
        ∀ i, i < (pollAt s pollId).options.length →
          ((pollAt s' pollId).encryptedCounts.getD i default).val
            = ((pollAt s pollId).encryptedCounts.getD i default).val) ∧
      (pollAt s' pollId).totalVoters = (pollAt s pollId).totalVoters + 1 ∧
      (pollId, sender) ∈ s'.hasVoted := by
  refine ⟨_, voteOp_eq_ok s sender pollId choice now h hst hen hf hv, ?_⟩
  have hset : (pollAt { s with
      polls := s.polls.set pollId { pollAt s pollId with
        encryptedCounts :=
          bumpCounts (pollAt s pollId).encryptedCounts choice 0 s.nextHandle
        totalVoters := (pollAt s pollId).totalVoters + 1 }
      hasVoted := (pollId, sender) :: s.hasVoted
      acl := aclGrants s.nextHandle (pollAt s pollId).encryptedCounts.length
               sender (pollAt s pollId).creator ++ s.acl
      nextHandle := s.nextHandle + (pollAt s pollId).encryptedCounts.length }
        pollId)
      = { pollAt s pollId with
          encryptedCounts :=
            bumpCounts (pollAt s pollId).encryptedCounts choice 0 s.nextHandle
          totalVoters := (pollAt s pollId).totalVoters + 1 } := by
    unfold pollAt
    exact getD_set_self _ _ _ h
  rw [hset]
  refine ⟨?_, ?_, ?_, ?_, ?_⟩
  · simp [bumpCounts_length, hlen]
  · intro i hi
    have hi' : i < (pollAt s pollId).encryptedCounts.length := by omega
    rw [bumpCounts_getD _ _ 0 s.nextHandle i hi']
    simp
  · intro hout i hi
    have hi' : i < (pollAt s pollId).encryptedCounts.length := by omega
    rw [bumpCounts_getD _ _ 0 s.nextHandle i hi']
    have hne : ¬(choice = i) := by omega
    simp [hne]
  · rfl
  · exact List.mem_cons_self _ _

/-- C5: a first vote by a fresh voter inside the window succeeds, raises
getTotalVoters by exactly one and sets hasUserVoted; a second vote by the same
voter inside the window then fails AlreadyVoted and, the transaction
reverting, leaves totalVoters unchanged. -/
theorem first_vote_succeeds_second_rejected (s : VState)
    (sender pollId choice choice₂ now now₂ : Nat)
    (h : pollId < s.polls.length)
    (hst : (pollAt s pollId).startTime ≤ now)
    (hen : now ≤ (pollAt s pollId).endTime)
    (hf : (pollAt s pollId).finalized = false)
    (hv : (pollId, sender) ∉ s.hasVoted)
    (hst₂ : (pollAt s pollId).startTime ≤ now₂)
    (hen₂ : now₂ ≤ (pollAt s pollId).endTime) :
    ∃ s', voteOp s sender pollId choice now = .ok s' ∧
      getTotalVoters s' pollId = .ok ((pollAt s pollId).totalVoters + 1) ∧
      hasUserVoted s' pollId sender = .ok true ∧
      voteOp s' sender pollId choice₂ now₂ = .error .alreadyVoted ∧
      getTotalVoters (step s' (.castVote sender pollId choice₂ now₂)) pollId
        = .ok ((pollAt s pollId).totalVoters + 1) := by
  refine ⟨_, voteOp_eq_ok s sender pollId choice now h hst hen hf hv, ?_, ?_, ?_, ?_⟩
  all_goals
    set np : Poll := { pollAt s pollId with
        encryptedCounts :=
          bumpCounts (pollAt s pollId).encryptedCounts choice 0 s.nextHandle
        totalVoters := (pollAt s pollId).totalVoters + 1 } with hnp
  all_goals
    set s' : VState := { s with
      polls := s.polls.set pollId np
      hasVoted := (pollId, sender) :: s.hasVoted
      acl := aclGrants s.nextHandle (pollAt s pollId).encryptedCounts.length
               sender (pollAt s pollId).creator ++ s.acl
      nextHandle := s.nextHandle + (pollAt s pollId).encryptedCounts.length }
      with hs'
  all_goals
    have hlen' : pollId < s'.polls.length := by
      simp [hs', List.length_set]; omega
  all_goals
    have hget : s'.polls[pollId] = np := by
      simp [hs']
  · unfold getTotalVoters
    rw [dif_pos hlen', hget]
  · unfold hasUserVoted
    rw [if_pos hlen']
    simp [hs']
  · unfold voteOp
    rw [dif_pos hlen', hget]
    have h1 : ¬(now₂ < np.startTime) := by simp [hnp]; omega
    have h2 : ¬(np.endTime < now₂) := by simp [hnp]; omega
    have h3 : ¬(np.finalized = true) := by simp [hnp, hf]
    have h4 : (pollId, sender) ∈ s'.hasVoted := by simp [hs']
    rw [if_neg h1, if_neg h2, if_neg h3, if_pos h4]
  · have herr : voteOp s' sender pollId choice₂ now₂ = .error .alreadyVoted := by
      unfold voteOp
      rw [dif_pos hlen', hget]
      have h1 : ¬(now₂ < np.startTime) := by simp [hnp]; omega
      have h2 : ¬(np.endTime < now₂) := by simp [hnp]; omega
      have h3 : ¬(np.finalized = true) := by simp [hnp, hf]
      have h4 : (pollId, sender) ∈ s'.hasVoted := by simp [hs']
      rw [if_neg h1, if_neg h2, if_neg h3, if_pos h4]
    have hstep : step s' (.castVote sender pollId choice₂ now₂) = s' := by
      simp [step, apply1, herr]
    rw [hstep]
    unfold getTotalVoters
    rw [dif_pos hlen', hget]

/-- C10 amended: every accepted vote grants FHE decryption permission on all
of the poll's freshly produced current counter ciphertexts to the contract,
the voting sender, and the poll creator; hence after any vote the most recent
voter and the creator hold permission on the current running tallies.  An
earlier voter's grants attach only to the superseded counter handles, so they
do not in general extend to the current ones. -/
theorem vote_grants_permissions_current (s : VState)
    (sender pollId choice now : Nat)
    (h : pollId < s.polls.length)
    (hst : (pollAt s pollId).startTime ≤ now)
    (hen : now ≤ (pollAt s pollId).endTime)
    (hf : (pollAt s pollId).finalized = false)
    (hv : (pollId, sender) ∉ s.hasVoted) :
    ∃ s', voteOp s sender pollId choice now = .ok s' ∧
      ∀ i, i < (pollAt s pollId).encryptedCounts.length →
        ((((pollAt s' pollId).encryptedCounts.getD i default).hid, contractAddr)
            ∈ s'.acl ∧
         (((pollAt s' pollId).encryptedCounts.getD i default).hid, sender)
            ∈ s'.acl ∧
         (((pollAt s' pollId).encryptedCounts.getD i default).hid,
            (pollAt s pollId).creator) ∈ s'.acl) := by
  refine ⟨_, voteOp_eq_ok s sender pollId choice now h hst hen hf hv, ?_⟩
  intro i hi
  have hset : (pollAt { s with
      polls := s.polls.set pollId { pollAt s pollId with
        encryptedCounts :=
          bumpCounts (pollAt s pollId).encryptedCounts choice 0 s.nextHandle
        totalVoters := (pollAt s pollId).totalVoters + 1 }
      hasVoted := (pollId, sender) :: s.hasVoted
      acl := aclGrants s.nextHandle (pollAt s pollId).encryptedCounts.length
               sender (pollAt s pollId).creator ++ s.acl
      nextHandle := s.nextHandle + (pollAt s pollId).encryptedCounts.length }
        pollId)
      = { pollAt s pollId with
          encryptedCounts :=
            bumpCounts (pollAt s pollId).encryptedCounts choice 0 s.nextHandle
          totalVoters := (pollAt s pollId).totalVoters + 1 } := by
    unfold pollAt
    exact getD_set_self _ _ _ h
  rw [hset]
  have hgd := bumpCounts_getD (pollAt s pollId).encryptedCounts choice 0
    s.nextHandle i hi
  have hmem := aclGrants_mem sender (pollAt s pollId).creator
    (pollAt s pollId).encryptedCounts.length s.nextHandle i hi
  refine ⟨?_, ?_, ?_⟩ <;>
    simp only [hgd] <;>
    exact List.mem_append_left _ (by
      first
        | exact hmem.1
        | exact hmem.2.1
        | exact hmem.2.2)

/-- C6: createPoll fails with the empty-title error on an empty title, with
the option-count error when options.length is outside [2, 16] (lengths 1 and
17 included), with a time-range error when endTime is not after startTime or
not in the future; lengths 2 and 16 with valid other fields succeed and
allocate exactly one new poll id; every failure leaves the poll store
unchanged. -/
theorem createPoll_validation (s : VState) (sender : Nat) (title : String)
    (options : List String) (st en now : Nat) :
    (title.isEmpty = true →
      createPollOp s sender title options st en now = .error .titleEmpty) ∧
    (title.isEmpty = false → (options.length < 2 ∨ 16 < options.length) →
      createPollOp s sender title options st en now = .error .invalidOptionCount) ∧
    (title.isEmpty = false → 2 ≤ options.length → options.length ≤ 16 →
      en ≤ st →
      createPollOp s sender title options st en now = .error .endBeforeStart) ∧
    (title.isEmpty = false → 2 ≤ options.length → options.length ≤ 16 →
      st < en → en ≤ now →
      createPollOp s sender title options st en now = .error .endNotFuture) ∧
    (title.isEmpty = false → (options.length = 2 ∨ options.length = 16) →
      st < en → now < en →
      ∃ s', createPollOp s sender title options st en now = .ok s' ∧
        s'.polls.length = s.polls.length + 1) ∧
    (∀ e, createPollOp s sender title options st en now = .error e →
      step s (.create sender title options st en now) = s) := by
  refine ⟨?_, ?_, ?_, ?_, ?_, ?_⟩
  · intro h1
    unfold createPollOp
    rw [if_pos h1]
  · intro h1 h2
    unfold createPollOp
    rw [if_neg (by simp [h1]), if_pos h2]
  · intro h1 h2 h3 h4
    unfold createPollOp
    rw [if_neg (by simp [h1]), if_neg (by omega), if_pos h4]
  · intro h1 h2 h3 h4 h5
    unfold createPollOp
    rw [if_neg (by simp [h1]), if_neg (by omega), if_neg (by omega), if_pos h5]
  · intro h1 h2 h3 h4
    unfold createPollOp
    rw [if_neg (by simp [h1]), if_neg (by omega), if_neg (by omega),
      if_neg (by omega)]
    exact ⟨_, rfl, by simp⟩
  · intro e he
    simp [step, apply1, he]

/-- C7: requestFinalization fails NotFound for an unknown poll id, the
finalized error on a Finalized poll, and the pending error on a
DecryptionPending poll; in every other case it succeeds.  The source takes no
time input at all (its endTime require is commented out), so success never
depends on whether the voting window has ended. -/
theorem requestFinalization_states (s : VState) (pollId : Nat) :
    (s.polls.length ≤ pollId →
      requestFinalizationOp s pollId = .error .pollDoesNotExist) ∧
    (pollId < s.polls.length → (pollAt s pollId).finalized = true →
      requestFinalizationOp s pollId = .error .pollFinalized) ∧
    (pollId < s.polls.length → (pollAt s pollId).finalized = false →
      (pollAt s pollId).decryptionPending = true →
      requestFinalizationOp s pollId = .error .decryptionAlreadyPending) ∧
    (pollId < s.polls.length → (pollAt s pollId).finalized = false →
      (pollAt s pollId).decryptionPending = false →
      ∃ s', requestFinalizationOp s pollId = .ok s' ∧
        (pollAt s' pollId).decryptionPending = true ∧
        (pollAt s' pollId).requestId = s.nextRequestId) := by
  refine ⟨?_, ?_, ?_, ?_⟩
  · intro hge
    unfold requestFinalizationOp
    rw [dif_neg (by omega)]
  · intro h hfin
    have hpa : pollAt s pollId = s.polls[pollId] := List.getD_eq_getElem _ _ h
    rw [hpa] at hfin
    unfold requestFinalizationOp
    rw [dif_pos h, if_pos hfin]
  · intro h hfin hpend
    have hpa : pollAt s pollId = s.polls[pollId] := List.getD_eq_getElem _ _ h
    rw [hpa] at hfin hpend
    unfold requestFinalizationOp
    rw [dif_pos h, if_neg (by simp [hfin]), if_pos hpend]
  · intro h hfin hpend
    have hpa : pollAt s pollId = s.polls[pollId] := List.getD_eq_getElem _ _ h
    rw [hpa] at hfin hpend
    unfold requestFinalizationOp
    rw [dif_pos h, if_neg (by simp [hfin]), if_neg (by simp [hpend])]
    refine ⟨_, rfl, ?_, ?_⟩ <;>
      · unfold pollAt
        rw [getD_set_self _ _ _ h]

/-- C8 amended: the decryption callback fails with the invalid-request or
no-pending-decryption error whenever the requestId does not resolve to a poll
currently in DecryptionPending under that requestId, fails with the
result-length error when the number of cleartexts differs from the number of
encrypted counters, and for an already finalized poll a repeated callback
fails with the no-pending-decryption error (not the finalized-poll error) and
leaves revealedCounts unchanged. -/
theorem decryptionCallback_errors (s : VState) (caller rid : Nat)
    (cts : List Nat) (sigs : List (List Nat)) (pid : Nat)
    (hpid : pid = lookupD s.requestToPoll rid) :
    (¬(pid < s.polls.length ∧ (pollAt s pid).decryptionPending = true ∧
        (pollAt s pid).requestId = rid) →
      errOf (decryptionCallbackOp s caller rid cts sigs)
          = some .invalidRequestId ∨
      errOf (decryptionCallbackOp s caller rid cts sigs)
          = some .noPendingDecryption) ∧
    (pid < s.polls.length → (pollAt s pid).decryptionPending = true →
      (pollAt s pid).requestId = rid →
      cts.length ≠ (pollAt s pid).encryptedCounts.length →
      decryptionCallbackOp s caller rid cts sigs
        = .error .resultLengthMismatch) ∧
    (pid < s.polls.length → (pollAt s pid).finalized = true →
      (pollAt s pid).decryptionPending = false →
      decryptionCallbackOp s caller rid cts sigs
          = .error .noPendingDecryption ∧
      (pollAt (step s (.callback caller rid cts sigs)) pid).decryptedCounts
        = (pollAt s pid).decryptedCounts) := by
  subst hpid
  refine ⟨?_, ?_, ?_⟩
  · intro hno
    by_cases hl : lookupD s.requestToPoll rid < s.polls.length
    · right
      have hpa : pollAt s (lookupD s.requestToPoll rid)
          = s.polls[lookupD s.requestToPoll rid] := List.getD_eq_getElem _ _ hl
      rw [hpa] at hno
      unfold decryptionCallbackOp
      rw [dif_pos hl, if_neg (by tauto)]
      rfl
    · left
      unfold decryptionCallbackOp
      rw [dif_neg hl]
      rfl
  · intro hl hpend hrid hne
    have hpa : pollAt s (lookupD s.requestToPoll rid)
        = s.polls[lookupD s.requestToPoll rid] := List.getD_eq_getElem _ _ hl
    rw [hpa] at hpend hrid hne
    unfold decryptionCallbackOp
    rw [dif_pos hl, if_pos ⟨hpend, hrid⟩, if_neg hne]
  · intro hl hfin hpend
    have hpa : pollAt s (lookupD s.requestToPoll rid)
        = s.polls[lookupD s.requestToPoll rid] := List.getD_eq_getElem _ _ hl
    rw [hpa] at hpend
    have herr : decryptionCallbackOp s caller rid cts sigs
        = .error .noPendingDecryption := by
      unfold decryptionCallbackOp
      rw [dif_pos hl, if_neg (by simp [hpend])]
    refine ⟨herr, ?_⟩
    have hstep : step s (.callback caller rid cts sigs) = s := by
      simp [step, apply1, herr]
    rw [hstep]

theorem getD_set_ne {α : Type} [Inhabited α] (l : List α) (i j : Nat) (a : α)
    (hne : i ≠ j) (hj : j < l.length) :
    (l.set i a).getD j default = l.getD j default := by
  have hj' : j < (l.set i a).length := by simpa using hj
  rw [List.getD_eq_getElem _ _ hj', List.getD_eq_getElem _ _ hj,
    List.getElem_set_ne hne]

/-- Shape of the poll store after one transaction: unchanged, extended by one
fresh open poll, or one poll replaced by an admissible pollStep successor. -/
theorem step_polls_shape (s : VState) (op : Op) :
    (step s op).polls = s.polls ∨
    (∃ p, (step s op).polls = s.polls ++ [p] ∧
      p.finalized = false ∧ p.decryptionPending = false) ∨
    (∃ pid, ∃ hp : pid < s.polls.length, ∃ p,
      (step s op).polls = s.polls.set pid p ∧ pollStep s.polls[pid] p) := by
  cases op with
  | create sender title options st en now =>
      simp only [step, apply1]
      unfold createPollOp
      split_ifs with h1 h2 h3 h4
      all_goals first
        | (left; rfl)
        | (right; left; exact ⟨_, rfl, rfl, rfl⟩)
  | castVote sender pollId choice now =>
      simp only [step, apply1]
      unfold voteOp
      split_ifs with h1 h2 h3 h4 h5
      all_goals first
        | (left; rfl)
        | (right; right; exact ⟨pollId, h1, _, rfl, Or.inl ⟨rfl, rfl⟩⟩)
  | finalize pollId =>
      simp only [step, apply1]
      unfold requestFinalizationOp
      split_ifs with h1 h2 h3
      all_goals first
        | (left; rfl)
        | (right; right;
            exact ⟨pollId, h1, _, rfl, Or.inr (Or.inl
              ⟨by simpa using h2, by simpa using h3, by simpa using h2, rfl⟩)⟩)
  | callback caller rid cts sigs =>
      simp only [step, apply1]
      unfold decryptionCallbackOp
      split_ifs with h1 h2 h3
      all_goals first
        | (left; rfl)
        | (right; right;
            exact ⟨_, h1, _, rfl, Or.inr (Or.inr ⟨h2.1, rfl, rfl⟩)⟩)

/-- One transaction never lowers a poll's lifecycle rank, and a finalized poll
stays finalized. -/
theorem lifecycle_step (s : VState) (op : Op) (pid : Nat)
    (h : pid < s.polls.length) :
    pid < (step s op).polls.length ∧
    lifecycle (pollAt s pid) ≤ lifecycle (pollAt (step s op) pid) ∧
    ((pollAt s pid).finalized = true →
      (pollAt (step s op) pid).finalized = true) := by
  rcases step_polls_shape s op with heq | ⟨p, heq, hf, hd⟩ |
    ⟨pid', hp', p, heq, hps⟩
  · rw [pollAt, pollAt, heq]
    exact ⟨h, Nat.le_refl _, fun hx => hx⟩
  · have hsame : pollAt (step s op) pid = pollAt s pid := by
      rw [pollAt, pollAt, heq]
      exact List.getD_append _ _ _ _ h
    refine ⟨?_, ?_, ?_⟩
    · rw [heq]; simp only [List.length_append]; omega
    · rw [hsame]
    · rw [hsame]; exact fun hx => hx
  · have hstep1 : pid < (step s op).polls.length := by
      rw [heq]; simpa using h
    by_cases hpp : pid' = pid
    · subst hpp
      have hnew : pollAt (step s op) pid' = p := by
        rw [pollAt, heq]; exact getD_set_self _ _ _ hp'
      have hold : pollAt s pid' = s.polls[pid'] :=
        List.getD_eq_getElem _ _ hp'
      refine ⟨hstep1, ?_, ?_⟩
      · rw [hnew, hold]
        rcases hps with ⟨e1, e2⟩ | ⟨e1, e2, e3, e4⟩ | ⟨e1, e2, e3⟩
        · unfold lifecycle; rw [e1, e2]
        · unfold lifecycle
          by_cases hq : s.polls[pid'].decryptionPending = true <;>
            · simp [e1, e3, e4, hq]
              try omega
        · unfold lifecycle
          by_cases hq : s.polls[pid'].finalized = true <;>
            by_cases hr : s.polls[pid'].decryptionPending = true <;>
              · simp [e2, hq, hr]
                try omega
      · rw [hnew, hold]
        intro hx
        rcases hps with ⟨e1, e2⟩ | ⟨e1, e2, e3, e4⟩ | ⟨e1, e2, e3⟩
        · rw [e1, hx]
        · rw [e1] at hx; exact absurd hx (by simp)
        · exact e2
    · have hsame : pollAt (step s op) pid = pollAt s pid := by
        rw [pollAt, pollAt, heq]; exact getD_set_ne _ _ _ _ hpp h
      exact ⟨hstep1, by rw [hsame], by rw [hsame]; exact fun hx => hx⟩

/-- One transaction preserves the flag-exclusion invariant. -/
theorem stateInv_step (s : VState) (op : Op) (hinv : StateInv s) :
    StateInv (step s op) := by
  rcases step_polls_shape s op with heq | ⟨p, heq, hf, hd⟩ |
    ⟨pid', hp', p, heq, hps⟩
  · intro q hq; rw [heq] at hq; exact hinv q hq
  · intro q hq
    rw [heq] at hq
    rcases List.mem_append.mp hq with hq | hq
    · exact hinv q hq
    · have : q = p := by simpa using hq
      subst this
      rw [hf]; simp
  · intro q hq
    rw [heq] at hq
    rcases List.mem_or_eq_of_mem_set hq with hq | hq
    · exact hinv q hq
    · subst hq
      have hmem : s.polls[pid'] ∈ s.polls := List.getElem_mem _
      have hold := hinv _ hmem
      rcases hps with ⟨e1, e2⟩ | ⟨e1, e2, e3, e4⟩ | ⟨e1, e2, e3⟩
      · rw [e1, e2]; exact hold
      · rw [e3]; simp
      · rw [e3]; simp

/-- Running any transaction sequence preserves the invariant. -/
theorem stateInv_run (ops : List Op) :
    ∀ s : VState, StateInv s → StateInv (run s ops) := by
  induction ops with
  | nil => intro s hs; exact hs
  | cons op rest ih =>
      intro s hs
      exact ih (step s op) (stateInv_step s op hs)

/-- One transaction raises a poll's lifecycle rank by at most one: no
transition skips a state (in particular no poll moves directly from Open to
Finalized in one transaction). -/
theorem lifecycle_step_no_skip (s : VState) (op : Op) (pid : Nat)
    (h : pid < s.polls.length) :
    lifecycle (pollAt (step s op) pid) ≤ lifecycle (pollAt s pid) + 1 := by
  rcases step_polls_shape s op with heq | ⟨p, heq, hf, hd⟩ |
    ⟨pid', hp', p, heq, hps⟩
  · rw [pollAt, pollAt, heq]
    omega
  · have hsame : pollAt (step s op) pid = pollAt s pid := by
      rw [pollAt, pollAt, heq]
      exact List.getD_append _ _ _ _ h
    rw [hsame]
    omega
  · by_cases hpp : pid' = pid
    · subst hpp
      have hnew : pollAt (step s op) pid' = p := by
        rw [pollAt, heq]
        exact getD_set_self _ _ _ hp'
      have hold : pollAt s pid' = s.polls[pid'] :=
        List.getD_eq_getElem _ _ hp'
      rw [hnew, hold]
      rcases hps with ⟨e1, e2⟩ | ⟨e1, e2, e3, e4⟩ | ⟨e1, e2, e3⟩
      · unfold lifecycle
        rw [e1, e2]
        omega
      · unfold lifecycle
        by_cases hq : s.polls[pid'].decryptionPending = true <;>
          · simp [e1, e3, e4, hq]
            try omega
      · unfold lifecycle
        by_cases hq : s.polls[pid'].finalized = true <;>
          · simp [e1, e2, e3, hq]
            try omega
    · have hsame : pollAt (step s op) pid = pollAt s pid := by
        rw [pollAt, pollAt, heq]
        exact getD_set_ne _ _ _ _ hpp h
      rw [hsame]
      omega

/-- C9: under every transaction from every state, a poll's lifecycle rank
(Open = 0, DecryptionPending = 1, Finalized = 2) never decreases and rises by
at most one, so every poll moves only forward along Open, DecryptionPending,
Finalized with no transition skipping a state and none going backward; a
finalized poll stays finalized, so no poll is finalized twice; moreover the
finalized and decryptionPending flags are never simultaneously true in any
state reachable from deployment. -/
theorem lifecycle_monotone (s : VState) (op : Op) (pid : Nat)
    (h : pid < s.polls.length) :
    (pid < (step s op).polls.length ∧
      lifecycle (pollAt s pid) ≤ lifecycle (pollAt (step s op) pid) ∧
      lifecycle (pollAt (step s op) pid) ≤ lifecycle (pollAt s pid) + 1 ∧
      ((pollAt s pid).finalized = true →
        (pollAt (step s op) pid).finalized = true)) ∧
    (StateInv s → StateInv (step s op)) ∧
    (∀ ops : List Op, StateInv (run initState ops)) := by
  obtain ⟨h1, h2, h3⟩ := lifecycle_step s op pid h
  refine ⟨⟨h1, h2, lifecycle_step_no_skip s op pid h, h3⟩,
    stateInv_step s op, ?_⟩
  intro ops
  exact stateInv_run ops initState (by intro p hp; simp [initState] at hp)

/-- Witness for lifecycle_monotone at a concrete transition: finalizing poll 0
of sPollA raises its lifecycle rank from Open by exactly one step and
preserves the reachable invariant. -/
theorem lifecycle_monotone_witness :
    lifecycle (pollAt sPollA 0) ≤
      lifecycle (pollAt (step sPollA (.finalize 0)) 0) ∧
    lifecycle (pollAt (step sPollA (.finalize 0)) 0) ≤
      lifecycle (pollAt sPollA 0) + 1 ∧
    StateInv (run initState [.create 1 ("T") [("A"), ("B")] 0 100 10,
      .finalize 0]) := by
  have h := lifecycle_monotone sPollA (.finalize 0) 0 (by decide)
  exact ⟨h.1.2.1, h.1.2.2.1, h.2.2 _⟩

/-- Casting a list of ballots by pairwise-distinct fresh voters inside the
voting window of an open poll always succeeds and adds, per option index, the
number of ballots that chose that index, while preserving the poll's window,
lifecycle flags and store size. -/
theorem castAll_ok (pid now : Nat) :
    ∀ (votes : List (Nat × Nat)) (s : VState),
    pid < s.polls.length →
    (pollAt s pid).startTime ≤ now →
    now ≤ (pollAt s pid).endTime →
    (pollAt s pid).finalized = false →
    (votes.map Prod.fst).Nodup →
    (∀ v ∈ votes.map Prod.fst, (pid, v) ∉ s.hasVoted) →
    ∃ s₁, castAll s pid now votes = .ok s₁ ∧
      s₁.polls.length = s.polls.length ∧
      (pollAt s₁ pid).startTime = (pollAt s pid).startTime ∧
      (pollAt s₁ pid).endTime = (pollAt s pid).endTime ∧
      (pollAt s₁ pid).finalized = false ∧
      (pollAt s₁ pid).decryptionPending = (pollAt s pid).decryptionPending ∧
      (pollAt s₁ pid).totalVoters = (pollAt s pid).totalVoters + votes.length ∧
      (pollAt s₁ pid).encryptedCounts.length
        = (pollAt s pid).encryptedCounts.length ∧
      (∀ j, j < (pollAt s pid).encryptedCounts.length →
        ((pollAt s₁ pid).encryptedCounts.getD j default).val
          = ((pollAt s pid).encryptedCounts.getD j default).val
            + (votes.map Prod.snd).count j) := by
  intro votes
  induction votes with
  | nil =>
      intro s h hst hen hf hnd hfresh
      exact ⟨s, rfl, rfl, rfl, rfl, hf, rfl, by simp, rfl,
        fun j hj => by simp⟩
  | cons vc rest ih =>
      intro s h hst hen hf hnd hfresh
      obtain ⟨v, c⟩ := vc
      have hv : (pid, v) ∉ s.hasVoted := by
        apply hfresh
        simp
      have hok := voteOp_eq_ok s v pid c now h hst hen hf hv
      set np : Poll := { pollAt s pid with
        encryptedCounts :=
          bumpCounts (pollAt s pid).encryptedCounts c 0 s.nextHandle
        totalVoters := (pollAt s pid).totalVoters + 1 } with hnp
      set s' : VState := { s with
        polls := s.polls.set pid np
        hasVoted := (pid, v) :: s.hasVoted
        acl := aclGrants s.nextHandle (pollAt s pid).encryptedCounts.length
                 v (pollAt s pid).creator ++ s.acl
        nextHandle := s.nextHandle + (pollAt s pid).encryptedCounts.length }
        with hs'
      have hcast : castAll s pid now ((v, c) :: rest) = castAll s' pid now rest := by
        simp only [castAll]
        rw [hok]
      have hlen' : pid < s'.polls.length := by
        simp [hs', List.length_set]
        omega
      have hpa' : pollAt s' pid = np := by
        rw [pollAt]
        show (s.polls.set pid np).getD pid default = np
        exact getD_set_self _ _ _ h
      have hndr : (rest.map Prod.fst).Nodup :=
        (List.nodup_cons.mp (by simpa using hnd)).2
      have hhd : v ∉ rest.map Prod.fst :=
        (List.nodup_cons.mp (by simpa using hnd)).1
      have hfresh' : ∀ w ∈ rest.map Prod.fst, (pid, w) ∉ s'.hasVoted := by
        intro w hw hmem
        rw [hs'] at hmem
        rcases List.mem_cons.mp hmem with heq | hmem2
        · have : w = v := by
            have := congrArg Prod.snd heq
            simpa using this
          exact hhd (this ▸ hw)
        · exact hfresh w (by simp [hw]) hmem2
      obtain ⟨s₁, hc1, hc2, hc3, hc4, hc5, hc6, hc7, hc8, hc9⟩ :=
        ih s' hlen' (by rw [hpa', hnp]; exact hst) (by rw [hpa', hnp]; exact hen)
          (by rw [hpa', hnp]; exact hf) hndr hfresh'
      refine ⟨s₁, by rw [hcast]; exact hc1, ?_, ?_, ?_, ?_, ?_, ?_, ?_, ?_⟩
      · rw [hc2, hs']
        simp [List.length_set]
      · rw [hc3, hpa', hnp]
      · rw [hc4, hpa', hnp]
      · exact hc5
      · rw [hc6, hpa', hnp]
      · rw [hc7, hpa', hnp]
        simp
        omega
      · rw [hc8, hpa', hnp]
        simp [bumpCounts_length]
      · intro j hj
        have hj' : j < (pollAt s' pid).encryptedCounts.length := by
          rw [hpa', hnp]
          simpa [bumpCounts_length] using hj
        have h9 := hc9 j hj'
        rw [hpa', hnp] at h9
        have hbg := bumpCounts_getD (pollAt s pid).encryptedCounts c 0
          s.nextHandle j hj
        simp only [hbg] at h9
        rw [h9]
        simp only [List.map_cons, List.count_cons]
        by_cases hcj : c = j
        · subst hcj
          simp
          omega
        · have hjc : ¬(j = c) := fun hx => hcj hx.symm
          simp [hcj, hjc]

theorem histo_getD (choices : List Nat) (n k : Nat) (hk : k < n) :
    (histo choices n).getD k default = choices.count k := by
  unfold histo
  rw [List.getD_eq_getElem _ _ (by simpa using hk), List.getElem_map,
    List.getElem_range]

/-- Honest-oracle election run on a fresh open poll: the revealed counts are
exactly the per-option ballot histogram and totalVoters is the ballot count. -/
theorem runElection_histo (s : VState) (pid now n : Nat)
    (votes : List (Nat × Nat))
    (h : pid < s.polls.length)
    (hcl : (pollAt s pid).encryptedCounts.length = n)
    (hz : ∀ j, j < n → ((pollAt s pid).encryptedCounts.getD j default).val = 0)
    (htv : (pollAt s pid).totalVoters = 0)
    (hst : (pollAt s pid).startTime ≤ now)
    (hen : now ≤ (pollAt s pid).endTime)
    (hf : (pollAt s pid).finalized = false)
    (hp : (pollAt s pid).decryptionPending = false)
    (hnd : (votes.map Prod.fst).Nodup)
    (hfresh : ∀ v ∈ votes.map Prod.fst, (pid, v) ∉ s.hasVoted) :
    runElection s pid now votes
      = .ok (histo (votes.map Prod.snd) n, votes.length) := by
  obtain ⟨s₁, hc1, hc2, hc3, hc4, hc5, hc6, hc7, hc8, hc9⟩ :=
    castAll_ok pid now votes s h hst hen hf hnd hfresh
  have h₁ : pid < s₁.polls.length := by omega
  have hg₁ : s₁.polls[pid] = pollAt s₁ pid := (List.getD_eq_getElem _ _ h₁).symm
  set np₂ : Poll := { pollAt s₁ pid with
    decryptionPending := true
    requestId := s₁.nextRequestId } with hnp₂
  set s₂ : VState := { s₁ with
    polls := s₁.polls.set pid np₂
    requestToPoll := (s₁.nextRequestId, pid) :: s₁.requestToPoll
    nextRequestId := s₁.nextRequestId + 1 } with hs₂
  have hfin : requestFinalizationOp s₁ pid = .ok s₂ := by
    unfold requestFinalizationOp
    rw [dif_pos h₁, if_neg (by rw [hg₁, hc5]; simp),
      if_neg (by rw [hg₁, hc6, hp]; simp), hg₁]
  have hlen₂ : pid < s₂.polls.length := by
    rw [hs₂]
    simp only [List.length_set]
    omega
  have hpa₂ : pollAt s₂ pid = np₂ := by
    rw [pollAt, hs₂]
    exact getD_set_self _ _ _ h₁
  have hg₂ : s₂.polls[pid] = np₂ :=
    ((List.getD_eq_getElem s₂.polls default hlen₂).symm).trans hpa₂
  set cts : List Nat := np₂.encryptedCounts.map Ciphertext.val with hcts
  set np₃ : Poll := { np₂ with
    decryptedCounts := cts
    finalized := true
    decryptionPending := false } with hnp₃
  set s₃ : VState := { s₂ with polls := s₂.polls.set pid np₃ } with hs₃
  have hlookup : lookupD s₂.requestToPoll np₂.requestId = pid := by
    rw [hs₂, hnp₂]
    simp [lookupD]
  have hcb : decryptionCallbackOp s₂ contractAddr np₂.requestId cts []
      = .ok s₃ := by
    unfold decryptionCallbackOp
    rw [hlookup]
    rw [dif_pos hlen₂, if_pos ⟨by rw [hg₂], by rw [hg₂]⟩,
      if_pos (by rw [hg₂, hcts]; simp), hg₂]
  have hlen₃ : pid < s₃.polls.length := by
    rw [hs₃]
    simp only [List.length_set]
    omega
  have hpa₃ : pollAt s₃ pid = np₃ := by
    rw [pollAt, hs₃]
    exact getD_set_self _ _ _ hlen₂
  have hg₃ : s₃.polls[pid] = np₃ :=
    ((List.getD_eq_getElem s₃.polls default hlen₃).symm).trans hpa₃
  have hcounts₁ : (pollAt s₁ pid).encryptedCounts.length = n := by omega
  have hhist : cts = histo (votes.map Prod.snd) n := by
    rw [hcts]
    have hmaplen : (np₂.encryptedCounts.map Ciphertext.val).length = n := by
      rw [List.length_map, hnp₂]
      exact hcounts₁
    have hhlen : (histo (votes.map Prod.snd) n).length = n := by
      simp [histo]
    apply List.ext_getElem (by rw [hmaplen, hhlen])
    intro k hk₁ hk₂
    have hk : k < n := by
      rw [hmaplen] at hk₁
      exact hk₁
    have hk₀ : k < (pollAt s pid).encryptedCounts.length := by omega
    have hk₁' : k < (pollAt s₁ pid).encryptedCounts.length := by omega
    have hcount := hc9 k hk₀
    have hzk := hz k hk
    rw [hzk] at hcount
    have hkb : k < np₂.encryptedCounts.length := hk₁'
    rw [List.getElem_map]
    rw [← List.getD_eq_getElem np₂.encryptedCounts default hkb]
    have hcount' : (np₂.encryptedCounts.getD k default).val
        = 0 + (votes.map Prod.snd).count k := hcount
    rw [hcount']
    rw [← List.getD_eq_getElem (histo (votes.map Prod.snd) n) default hk₂]
    rw [histo_getD _ _ _ hk]
    omega
  have htv₃ : np₂.totalVoters = votes.length := by
    rw [hnp₂]
    show (pollAt s₁ pid).totalVoters = votes.length
    omega
  unfold runElection
  simp only [hc1]
  simp only [hfin]
  rw [dif_pos hlen₂]
  rw [hg₂]
  simp only [hcb]
  rw [dif_pos hlen₃, hg₃]
  rw [hnp₃]
  rw [hhist, htv₃]

theorem sum_map_add (l : List Nat) (f g : Nat → Nat) :
    (l.map (fun i => f i + g i)).sum = (l.map f).sum + (l.map g).sum := by
  induction l with
  | nil => simp
  | cons a tl ih =>
      simp only [List.map_cons, List.sum_cons, ih]
      omega

theorem sum_range_if (c : Nat) : ∀ n : Nat,
    ((List.range n).map (fun i => if c = i then 1 else 0)).sum
      = if c < n then 1 else 0 := by
  intro n
  induction n with
  | zero => simp
  | succ m ih =>
      rw [List.range_succ, List.map_append, List.sum_append, ih]
      simp only [List.map_cons, List.map_nil, List.sum_cons, List.sum_nil]
      split_ifs <;> omega

theorem histo_sum (choices : List Nat) (n : Nat)
    (hall : ∀ c ∈ choices, c < n) :
    (histo choices n).sum = choices.length := by
  induction choices with
  | nil =>
      unfold histo
      simp
  | cons c tl ih =>
      have hc : c < n := hall c (List.mem_cons_self _ _)
      have htl : ∀ x ∈ tl, x < n := fun x hx => hall x (List.mem_cons_of_mem _ hx)
      have hmap : histo (c :: tl) n
          = (List.range n).map (fun i => tl.count i + if c = i then 1 else 0) := by
        unfold histo
        apply List.map_congr_left
        intro i hi
        simp [List.count_cons]
      rw [hmap,
        sum_map_add (List.range n) (fun i => tl.count i) (fun i => if c = i then 1 else 0)]
      have h1 : ((List.range n).map fun i => tl.count i).sum = tl.length := by
        have hih := ih htl
        unfold histo at hih
        exact hih
      rw [h1, sum_range_if c n]
      simp [hc]

/-- C3: for any multiset of accepted ballots by distinct fresh voters with
known in-range choices on a fresh open poll, the honest-oracle finalization
reveals exactly the per-option histogram of the choices, independently of
submission order, and the histogram sums to totalVoters (the number of
ballots). -/
theorem revealedCounts_order_independent (s : VState) (pid now n : Nat)
    (votes₁ votes₂ : List (Nat × Nat))
    (hperm : votes₁.Perm votes₂)
    (h : pid < s.polls.length)
    (hcl : (pollAt s pid).encryptedCounts.length = n)
    (hz : ∀ j, j < n → ((pollAt s pid).encryptedCounts.getD j default).val = 0)
    (htv : (pollAt s pid).totalVoters = 0)
    (hst : (pollAt s pid).startTime ≤ now)
    (hen : now ≤ (pollAt s pid).endTime)
    (hf : (pollAt s pid).finalized = false)
    (hp : (pollAt s pid).decryptionPending = false)
    (hnd : (votes₁.map Prod.fst).Nodup)
    (hfresh : ∀ v ∈ votes₁.map Prod.fst, (pid, v) ∉ s.hasVoted)
    (hrange : ∀ c ∈ votes₁.map Prod.snd, c < n) :
    runElection s pid now votes₁
      = .ok (histo (votes₁.map Prod.snd) n, votes₁.length) ∧
    runElection s pid now votes₂
      = .ok (histo (votes₁.map Prod.snd) n, votes₁.length) ∧
    (histo (votes₁.map Prod.snd) n).sum = votes₁.length := by
  have r1 := runElection_histo s pid now n votes₁ h hcl hz htv hst hen hf hp
    hnd hfresh
  have hnd₂ : (votes₂.map Prod.fst).Nodup := (hperm.map Prod.fst).nodup hnd
  have hfresh₂ : ∀ v ∈ votes₂.map Prod.fst, (pid, v) ∉ s.hasVoted := by
    intro v hv
    exact hfresh v ((hperm.map Prod.fst).mem_iff.mpr hv)
  have r2 := runElection_histo s pid now n votes₂ h hcl hz htv hst hen hf hp
    hnd₂ hfresh₂
  have hhisto : histo (votes₂.map Prod.snd) n = histo (votes₁.map Prod.snd) n := by
    unfold histo
    apply List.map_congr_left
    intro i hi
    exact ((hperm.map Prod.snd).count_eq i).symm
  have hlength : votes₂.length = votes₁.length := hperm.length_eq.symm
  rw [hhisto, hlength] at r2
  refine ⟨r1, r2, ?_⟩
  rw [histo_sum (votes₁.map Prod.snd) n hrange, List.length_map]

/-- Witness for vote_rejects_only_finalized at concrete states: a finalized
poll rejects a vote with the finalized error; a pending-but-open poll accepts
one. -/
theorem vote_rejects_only_finalized_witness :
    voteOp sFinalA 7 0 0 10 = .error .pollFinalized ∧
    (∃ s', voteOp sPendingA 7 0 1 10 = .ok s' ∧
      (pollAt s' 0).totalVoters = (pollAt sPendingA 0).totalVoters + 1) := by
  constructor
  · exact (vote_rejects_only_finalized sFinalA 7 0 0 10 (by decide) (by decide)
      (by decide)).1 (by decide)
  · exact (vote_rejects_only_finalized sPendingA 7 0 1 10 (by decide) (by decide)
      (by decide)).2 (by decide) (by decide)

/-- Witness for vote_fanout_select_increment at a concrete accepted vote. -/
theorem vote_fanout_select_increment_witness :
    ∃ s', voteOp sPollA 5 0 1 10 = .ok s' := by
  obtain ⟨s', hok, _⟩ := vote_fanout_select_increment sPollA 5 0 1 10
    (by decide) (by decide) (by decide) (by decide) (by decide) (by decide)
  exact ⟨s', hok⟩

/-- Witness for first_vote_succeeds_second_rejected at a concrete voter. -/
theorem first_vote_succeeds_second_rejected_witness :
    ∃ s', voteOp sPollA 5 0 0 10 = .ok s' ∧
      voteOp s' 5 0 1 20 = .error .alreadyVoted := by
  obtain ⟨s', h1, h2, h3, h4, h5⟩ := first_vote_succeeds_second_rejected
    sPollA 5 0 0 1 10 20 (by decide) (by decide) (by decide) (by decide)
    (by decide) (by decide) (by decide)
  exact ⟨s', h1, h4⟩

/-- Witness for vote_grants_permissions_current at a concrete accepted vote. -/
theorem vote_grants_permissions_current_witness :
    ∃ s', voteOp sPollA 5 0 1 10 = .ok s' ∧
      ∀ i, i < (pollAt sPollA 0).encryptedCounts.length →
        ((((pollAt s' 0).encryptedCounts.getD i default).hid, 5) ∈ s'.acl) := by
  obtain ⟨s', hok, hperm⟩ := vote_grants_permissions_current sPollA 5 0 1 10
    (by decide) (by decide) (by decide) (by decide) (by decide)
  exact ⟨s', hok, fun i hi => (hperm i hi).2.1⟩

/-- Witness for createPoll_validation: each validation branch at a concrete
input, including the success of a minimal valid poll. -/
theorem createPoll_validation_witness :
    createPollOp initState 1 ("") [("A"), ("B")] 0 100 10 = .error .titleEmpty ∧
    createPollOp initState 1 ("T") [("A")] 0 100 10
      = .error .invalidOptionCount ∧
    createPollOp initState 1 ("T") [("A"), ("B")] 100 100 10
      = .error .endBeforeStart ∧
    createPollOp initState 1 ("T") [("A"), ("B")] 0 100 200
      = .error .endNotFuture ∧
    (∃ s', createPollOp initState 1 ("T") [("A"), ("B")] 0 100 10 = .ok s' ∧
      s'.polls.length = 1) := by
  refine ⟨?_, ?_, ?_, ?_, ?_⟩
  · exact (createPoll_validation initState 1 ("") [("A"), ("B")] 0 100 10).1
      (by decide)
  · exact (createPoll_validation initState 1 ("T") [("A")] 0 100 10).2.1
      (by decide) (by decide)
  · exact (createPoll_validation initState 1 ("T") [("A"), ("B")] 100 100
      10).2.2.1 (by decide) (by decide) (by decide) (by decide)
  · exact (createPoll_validation initState 1 ("T") [("A"), ("B")] 0 100
      200).2.2.2.1 (by decide) (by decide) (by decide) (by decide) (by decide)
  · obtain ⟨s', hok, hlen⟩ := (createPoll_validation initState 1 ("T")
      [("A"), ("B")] 0 100 10).2.2.2.2.1 (by decide) (by decide) (by decide)
      (by decide)
    refine ⟨s', hok, ?_⟩
    rw [hlen]
    rfl

/-- Witness for requestFinalization_states: each branch at a concrete state. -/
theorem requestFinalization_states_witness :
    requestFinalizationOp initState 0 = .error .pollDoesNotExist ∧
    requestFinalizationOp sFinalA 0 = .error .pollFinalized ∧
    requestFinalizationOp sPendingA 0 = .error .decryptionAlreadyPending ∧
    (∃ s', requestFinalizationOp sPollA 0 = .ok s') := by
  refine ⟨?_, ?_, ?_, ?_⟩
  · exact (requestFinalization_states initState 0).1 (by decide)
  · exact (requestFinalization_states sFinalA 0).2.1 (by decide) (by decide)
  · exact (requestFinalization_states sPendingA 0).2.2.1 (by decide)
      (by decide) (by decide)
  · obtain ⟨s', hok, _⟩ := (requestFinalization_states sPollA 0).2.2.2
      (by decide) (by decide) (by decide)
    exact ⟨s', hok⟩

/-- Witness for decryptionCallback_errors: each branch at a concrete state. -/
theorem decryptionCallback_errors_witness :
    (errOf (decryptionCallbackOp initState 9 77 [1, 2] [])
        = some Err.invalidRequestId ∨
      errOf (decryptionCallbackOp initState 9 77 [1, 2] [])
        = some Err.noPendingDecryption) ∧
    decryptionCallbackOp sPendingA 9 1 [1, 2, 3] []
      = .error .resultLengthMismatch ∧
    decryptionCallbackOp sFinalA 9 1 [1, 2] []
      = .error .noPendingDecryption := by
  refine ⟨?_, ?_, ?_⟩
  · exact (decryptionCallback_errors initState 9 77 [1, 2] [] 0 (by decide)).1
      (by decide)
  · exact (decryptionCallback_errors sPendingA 9 1 [1, 2, 3] [] 0
      (by decide)).2.1 (by decide) (by decide) (by decide) (by decide)
  · exact ((decryptionCallback_errors sFinalA 9 1 [1, 2] [] 0
      (by decide)).2.2 (by decide) (by decide) (by decide)).1

/-- Witness for revealedCounts_order_independent: three voters choosing
0, 1, 0 on a two-option poll yield revealed counts [2, 1] in either
submission order. -/
theorem revealedCounts_order_independent_witness :
    runElection sPollA 0 10 [(2, 0), (3, 1), (4, 0)]
      = .ok (histo [0, 1, 0] 2, 3) ∧
    runElection sPollA 0 10 [(3, 1), (4, 0), (2, 0)]
      = .ok (histo [0, 1, 0] 2, 3) := by
  have hr := revealedCounts_order_independent sPollA 0 10 2
    [(2, 0), (3, 1), (4, 0)] [(3, 1), (4, 0), (2, 0)]
    (by decide) (by decide) (by decide) (by decide) (by decide) (by decide)
    (by decide) (by decide) (by decide) (by decide) (by decide) (by decide)
  exact ⟨hr.1, hr.2.1⟩
